import Mathlib

/-!
Shallow embedding of the trivia-game score logic (script.js and the unnamed
earlier versions) together with proofs about its scoreboard pipeline.

Modelling conventions:
* JavaScript numbers are modelled as exact values (`Nat`/`Int` for counts and
  timestamps, `ℚ` for the ratios the comparators build); `Math.round` is
  `⌊x + 1/2⌋`, which is exactly ECMAScript round-half-up on these values.
* `Array.prototype.sort` with a comparator `c` is modelled as a stable sort by
  the relation `c a b ≤ 0`, realised with `List.insertionSort`.
* Local storage is an `Option String` valued cell; absence is `none`.
-/

/-- A persisted score record as built by `saveScoreToStorage`:
player name, correct count, total count, and an optional epoch timestamp
(the `part_000` version stores records without the `ts` field). -/
structure Score where
  name : String
  correct : Nat
  total : Nat
  ts : Option Nat
deriving DecidableEq

/-- Ratio used by the comparators: `s.total ? s.correct / s.total : 0`
(JavaScript treats `0` as falsy, so a zero total yields ratio `0`). -/
def Score.ratio (s : Score) : ℚ :=
  if s.total = 0 then 0 else (s.correct : ℚ) / (s.total : ℚ)

/-- Timestamp with a missing value defaulted to `0`, modelling `s.ts || 0`
and `typeof s.ts === "number" ? s.ts : 0`. -/
def Score.tsOr0 (s : Score) : Nat := s.ts.getD 0

/-- Model of `Math.round`: round half toward positive infinity. -/
def jsRound (x : ℚ) : Int := ⌊x + 1/2⌋

/-- Integer percentage `Math.round((s.total ? s.correct / s.total : 0) * 100)`
computed for each rendered row and for the top-score fold. -/
def Score.pctRound (s : Score) : Int := jsRound (s.ratio * 100)

/-- Comparator of the `highest` branch (script.js lines 476-484):
ratio descending, ties by timestamp descending. -/
def cmpHighest (a b : Score) : ℚ :=
  if Score.ratio b ≠ Score.ratio a then Score.ratio b - Score.ratio a
  else (Score.tsOr0 b : ℚ) - (Score.tsOr0 a : ℚ)

/-- Comparator of the `lowest` branch (script.js lines 487-492):
ratio ascending, ties by timestamp ascending. -/
def cmpLowest (a b : Score) : ℚ :=
  if Score.ratio a ≠ Score.ratio b then Score.ratio a - Score.ratio b
  else (Score.tsOr0 a : ℚ) - (Score.tsOr0 b : ℚ)

/-- Comparator of the `newest` branch: `(b.ts || 0) - (a.ts || 0)`. -/
def cmpNewest (a b : Score) : Int := (Score.tsOr0 b : Int) - (Score.tsOr0 a : Int)

/-- Comparator of the `oldest` branch: `(a.ts || 0) - (b.ts || 0)`. -/
def cmpOldest (a b : Score) : Int := (Score.tsOr0 a : Int) - (Score.tsOr0 b : Int)

/-- Sort relation induced by the `highest` comparator: `a` sorts no later
than `b` exactly when the comparator is nonpositive. -/
def highestRel (a b : Score) : Prop := cmpHighest a b ≤ 0

/-- Sort relation induced by the `lowest` comparator. -/
def lowestRel (a b : Score) : Prop := cmpLowest a b ≤ 0

/-- Sort relation induced by the `newest` comparator. -/
def newestRel (a b : Score) : Prop := cmpNewest a b ≤ 0

/-- Sort relation induced by the `oldest` comparator. -/
def oldestRel (a b : Score) : Prop := cmpOldest a b ≤ 0

instance : DecidableRel highestRel :=
  fun a b => inferInstanceAs (Decidable (cmpHighest a b ≤ 0))

instance : DecidableRel lowestRel :=
  fun a b => inferInstanceAs (Decidable (cmpLowest a b ≤ 0))

instance : DecidableRel newestRel :=
  fun a b => inferInstanceAs (Decidable (cmpNewest a b ≤ 0))

instance : DecidableRel oldestRel :=
  fun a b => inferInstanceAs (Decidable (cmpOldest a b ≤ 0))

/-- Sort dispatch of `displayScores` (script.js lines 468-493, identical in
`part_001` lines 354-382): each recognised preference sorts the array with
its comparator, every other string leaves the array untouched. -/
def sortScores (pref : String) (scores : List Score) : List Score :=
  if pref = "newest" then List.insertionSort newestRel scores
  else if pref = "oldest" then List.insertionSort oldestRel scores
  else if pref = "highest" then List.insertionSort highestRel scores
  else if pref = "lowest" then List.insertionSort lowestRel scores
  else scores

/-- `getSortPreference` (script.js lines 378-383): stored preference or the
default `"newest"`; the empty string is falsy in `pref || "newest"`. -/
def getSortPreference (stored : Option String) : String :=
  match stored with
  | none => "newest"
  | some pref => if pref = "" then "newest" else pref

/-- Reducer step of the top-percentage fold (script.js lines 496-501):
`pct > best ? pct : best`. -/
def topStep (best : Int) (s : Score) : Int :=
  if best < Score.pctRound s then Score.pctRound s else best

/-- Top percentage of the first `displayScores`:
`scores.reduce((best, s) => ..., 0)` over the rendered records. -/
def topPercentFold (shown : List Score) : Int := shown.foldl topStep 0

/-- Number of rendered rows flagged `top` (script.js lines 506-514): the
render loop counts exactly the rows whose integer percentage equals the
top percentage. -/
def topCountFold (shown : List Score) : Nat :=
  shown.countP (fun s => Score.pctRound s == topPercentFold shown)

/-- Sorted copy built by the second `displayScores` in script.js
(lines 953-963): `scores.slice().sort(...)` with the highest/newest
comparator. -/
def sortedV2 (scores : List Score) : List Score :=
  List.insertionSort highestRel scores

/-- Top percentage of the second `displayScores` (script.js lines 965-971):
`null` for an empty list, otherwise the integer percentage of the first
sorted record. -/
def topPercentV2 (scores : List Score) : Option Int :=
  match sortedV2 scores with
  | [] => none
  | s :: _ => some (Score.pctRound s)

/-- Whitespace recognised by the `String.prototype.trim` model. -/
def isTrimWs (c : Char) : Bool :=
  c = ' ' || c = '\x09' || c = '\x0a' || c = '\x0b' || c = '\x0c' || c = '\x0d'

/-- Drops leading trim-whitespace characters. -/
def dropWhileWs : List Char → List Char
  | [] => []
  | c :: cs => if isTrimWs c then dropWhileWs cs else c :: cs

/-- Model of `(value || "").trim()`. -/
def jsTrim (s : String) : String :=
  String.mk ((dropWhileWs (dropWhileWs s.data).reverse).reverse)

/-- Answer state of one rendered question block: `none` when no radio is
checked, `some b` when a radio is checked and `b` tells whether it carries
`data-correct="true"`. -/
abbrev AnswerState := Option Bool

/-- `handleFormSubmit` of script.js (first version, lines 234-375), reduced to
its effect on the stored score list: abort when any block is unanswered,
then abort when the trimmed name is empty, otherwise append the record that
`saveScoreToStorage` pushes. -/
def handleFormSubmit (blocks : List AnswerState) (username : String)
    (stored : List Score) (now : Nat) : List Score :=
  if blocks.any Option.isNone then stored
  else if jsTrim username = "" then stored
  else
    stored ++ [{ name := jsTrim username,
                 correct := blocks.countP (· == some true),
                 total := blocks.length,
                 ts := some now }]

/-- `handleFormSubmit` of `src/unnamed/part_000` (lines 148-204), reduced to
its effect on the stored score list: it performs no unanswered-question
validation and always appends a record (name defaulting to `"Anonymous"`,
record without a `ts` field). -/
def handleFormSubmitP0 (blocks : List AnswerState) (username : String)
    (stored : List Score) : List Score :=
  stored ++ [{ name := if jsTrim username = "" then "Anonymous" else jsTrim username,
               correct := blocks.countP (· == some true),
               total := blocks.length,
               ts := none }]

/-- JSON values as read and written by the storage helpers. Numbers are
modelled as exact integers: every number the program writes under the
`"scores"` key is an integer count or timestamp, so fractional and
exponent-notation literals are outside the model. -/
inductive Json where
  | null : Json
  | bool (b : Bool) : Json
  | num (n : Int) : Json
  | str (s : String) : Json
  | arr (elems : List Json) : Json
  | obj (members : List (String × Json)) : Json

/-- Hexadecimal digit character used in unicode escapes. -/
def hexDigitChar (n : Nat) : Char :=
  if n < 10 then Char.ofNat (48 + n) else Char.ofNat (87 + n)

/-- Escaping of one character inside a JSON string literal, as
`JSON.stringify` performs it. -/
def escapeChar (c : Char) : List Char :=
  if c = '"' then ['\\', '"']
  else if c = '\\' then ['\\', '\\']
  else if c = '\x08' then ['\\', 'b']
  else if c = '\x09' then ['\\', 't']
  else if c = '\x0a' then ['\\', 'n']
  else if c = '\x0c' then ['\\', 'f']
  else if c = '\x0d' then ['\\', 'r']
  else if c.toNat < 32 then
    ['\\', 'u', '0', '0', hexDigitChar (c.toNat / 16), hexDigitChar (c.toNat % 16)]
  else [c]

/-- Escaped body of a JSON string literal. -/
def escBody : List Char → List Char
  | [] => []
  | c :: rest => escapeChar c ++ escBody rest

/-- Complete JSON string literal, quotes included. -/
def escapeString (s : String) : List Char :=
  '"' :: (escBody s.data ++ ['"'])

/-- Decimal digits of a natural number, most significant first; the fuel is
an upper bound on the number, so `natDigits` below always has enough. -/
def natDigitsAux : Nat → Nat → List Char → List Char
  | 0, _, acc => acc
  | fuel+1, n, acc =>
    if n < 10 then Char.ofNat (48 + n % 10) :: acc
    else natDigitsAux fuel (n / 10) (Char.ofNat (48 + n % 10) :: acc)

/-- Decimal notation of a natural number. -/
def natDigits (n : Nat) : List Char := natDigitsAux (n + 1) n []

/-- Decimal notation of an integer. -/
def intDigits (i : Int) : List Char :=
  if i < 0 then '-' :: natDigits i.natAbs else natDigits i.natAbs

mutual

/-- Characters produced by `JSON.stringify`: no whitespace, object keys in
insertion order, strings escaped, integers in decimal notation. -/
def stringifyChars : Json → List Char
  | Json.null => ['n', 'u', 'l', 'l']
  | Json.bool true => ['t', 'r', 'u', 'e']
  | Json.bool false => ['f', 'a', 'l', 's', 'e']
  | Json.num i => intDigits i
  | Json.str s => escapeString s
  | Json.arr es => '[' :: (stringifyElems es ++ [']'])
  | Json.obj ms => '\x7b' :: (stringifyMembers ms ++ ['\x7d'])

/-- Comma-separated encodings of array elements. -/
def stringifyElems : List Json → List Char
  | [] => []
  | [e] => stringifyChars e
  | e :: es => stringifyChars e ++ ',' :: stringifyElems es

/-- Comma-separated `"key":value` encodings of object members. -/
def stringifyMembers : List (String × Json) → List Char
  | [] => []
  | [(k, v)] => escapeString k ++ ':' :: stringifyChars v
  | (k, v) :: ms => escapeString k ++ ':' :: stringifyChars v ++ ',' :: stringifyMembers ms

end

/-- String written by `JSON.stringify`. -/
def Json.stringify (j : Json) : String := String.mk (stringifyChars j)

/-- JSON whitespace. -/
def isJsonWs (c : Char) : Bool :=
  c = ' ' || c = '\x09' || c = '\x0a' || c = '\x0d'

/-- Skips leading JSON whitespace. -/
def skipWs : List Char → List Char
  | [] => []
  | c :: cs => if isJsonWs c then skipWs cs else c :: cs

/-- Decimal digit test. -/
def isDigitChar (c : Char) : Bool := 48 ≤ c.toNat && c.toNat ≤ 57

/-- Splits the maximal digit run off the front of the input. -/
def takeDigits : List Char → List Char × List Char
  | [] => ([], [])
  | c :: cs =>
    if isDigitChar c then
      let p := takeDigits cs
      (c :: p.1, p.2)
    else ([], c :: cs)

/-- Numeric value of a digit run. -/
def digitsVal (ds : List Char) : Nat :=
  ds.foldl (fun a c => 10 * a + (c.toNat - 48)) 0

/-- Test for a forbidden leading zero (the JSON grammar rejects `01`). -/
def hasLeadingZero : List Char → Bool
  | c :: _ :: _ => c == '0'
  | _ => false

/-- Parses a natural-number literal, rejecting empty runs and leading
zeros. -/
def parseNumLit (cs : List Char) : Option (Nat × List Char) :=
  let p := takeDigits cs
  if p.1 = [] then none
  else if hasLeadingZero p.1 then none
  else some (digitsVal p.1, p.2)

/-- Value of a hexadecimal digit character. -/
def hexVal (c : Char) : Option Nat :=
  if 48 ≤ c.toNat && c.toNat ≤ 57 then some (c.toNat - 48)
  else if 97 ≤ c.toNat && c.toNat ≤ 102 then some (c.toNat - 87)
  else if 65 ≤ c.toNat && c.toNat ≤ 70 then some (c.toNat - 55)
  else none

/-- Resolution of a single-character escape. -/
def unescapeChar (e : Char) : Option Char :=
  if e = '"' then some '"'
  else if e = '\\' then some '\\'
  else if e = '/' then some '/'
  else if e = 'b' then some '\x08'
  else if e = 'f' then some '\x0c'
  else if e = 'n' then some '\x0a'
  else if e = 'r' then some '\x0d'
  else if e = 't' then some '\x09'
  else none

/-- State of the string-literal scanner: scanning plain characters, just
after a backslash, or inside a `\uXXXX` escape with a count of remaining
hex digits and the accumulated code. -/
inductive EscState where
  | normal : EscState
  | esc : EscState
  | unicode : Nat → Nat → EscState

/-- Scanner for the body of a JSON string literal: one input character per
step, decoded characters accumulated in reverse. -/
def parseStringLoop : EscState → List Char → List Char → Option (List Char × List Char)
  | _, _, [] => none
  | EscState.normal, acc, c :: cs =>
    if c = '"' then some (acc.reverse, cs)
    else if c = '\\' then parseStringLoop EscState.esc acc cs
    else if c.toNat < 32 then none
    else parseStringLoop EscState.normal (c :: acc) cs
  | EscState.esc, acc, c :: cs =>
    if c = 'u' then parseStringLoop (EscState.unicode 4 0) acc cs
    else
      match unescapeChar c with
      | some u => parseStringLoop EscState.normal (u :: acc) cs
      | none => none
  | EscState.unicode k v, acc, c :: cs =>
    match hexVal c with
    | some d =>
      if k ≤ 1 then parseStringLoop EscState.normal (Char.ofNat (16 * v + d) :: acc) cs
      else parseStringLoop (EscState.unicode (k - 1) (16 * v + d)) acc cs
    | none => none

/-- Parses the body of a JSON string literal after the opening quote,
returning the decoded characters and the input after the closing quote. -/
def parseStringBody (cs : List Char) : Option (List Char × List Char) :=
  parseStringLoop EscState.normal [] cs

/-- Mode of the recursive-descent JSON parser: a single value, the elements
of an array up to `]`, or the members of an object up to the closing brace. -/
inductive PMode where
  | value : PMode
  | elems : PMode
  | members : PMode

/-- Fuel-indexed recursive-descent parser for the JSON grammar; `elems`
returns `Json.arr` of the parsed elements and `members` returns `Json.obj`
of the parsed members. Structural recursion on the fuel keeps every branch
computable by the kernel. -/
def parseF : Nat → PMode → List Char → Option (Json × List Char)
  | 0, _, _ => none
  | fuel+1, PMode.value, cs =>
    match skipWs cs with
    | [] => none
    | c :: rest =>
      if c = 'n' then
        match rest with
        | 'u' :: 'l' :: 'l' :: r => some (Json.null, r)
        | _ => none
      else if c = 't' then
        match rest with
        | 'r' :: 'u' :: 'e' :: r => some (Json.bool true, r)
        | _ => none
      else if c = 'f' then
        match rest with
        | 'a' :: 'l' :: 's' :: 'e' :: r => some (Json.bool false, r)
        | _ => none
      else if c = '"' then
        match parseStringBody rest with
        | some (out, r) => some (Json.str (String.mk out), r)
        | none => none
      else if c = '-' then
        match parseNumLit rest with
        | some (n, r) => some (Json.num (-(n : Int)), r)
        | none => none
      else if isDigitChar c then
        match parseNumLit (c :: rest) with
        | some (n, r) => some (Json.num (n : Int), r)
        | none => none
      else if c = '[' then
        match skipWs rest with
        | ']' :: r => some (Json.arr [], r)
        | cs2 => parseF fuel PMode.elems cs2
      else if c = '\x7b' then
        match skipWs rest with
        | '\x7d' :: r => some (Json.obj [], r)
        | cs2 => parseF fuel PMode.members cs2
      else none
  | fuel+1, PMode.elems, cs =>
    match parseF fuel PMode.value cs with
    | none => none
    | some (v, r1) =>
      match skipWs r1 with
      | ',' :: r2 =>
        match parseF fuel PMode.elems r2 with
        | some (Json.arr vs, r3) => some (Json.arr (v :: vs), r3)
        | _ => none
      | ']' :: r2 => some (Json.arr [v], r2)
      | _ => none
  | fuel+1, PMode.members, cs =>
    match skipWs cs with
    | '"' :: r1 =>
      match parseStringBody r1 with
      | none => none
      | some (key, r2) =>
        match skipWs r2 with
        | ':' :: r3 =>
          match parseF fuel PMode.value r3 with
          | none => none
          | some (v, r4) =>
            match skipWs r4 with
            | ',' :: r5 =>
              match parseF fuel PMode.members r5 with
              | some (Json.obj ms, r6) => some (Json.obj ((String.mk key, v) :: ms), r6)
              | _ => none
            | '\x7d' :: r5 => some (Json.obj [(String.mk key, v)], r5)
            | _ => none
        | _ => none
    | _ => none

/-- Model of the `JSON.parse` builtin used by the storage helpers: parse one
value and require only whitespace after it. The fuel `2 * length + 2`
always suffices, because the parser consumes at least one character for
every two fuel steps it descends. -/
def Json.parse (s : String) : Option Json :=
  match parseF (2 * s.length + 2) PMode.value s.data with
  | some (v, rest) => if skipWs rest = [] then some v else none
  | none => none

/-- JSON encoding of one score record exactly as `saveScoreToStorage` builds
it: keys `name`, `correct`, `total` and, when present, `ts`, in insertion
order (the `part_000` version pushes records without `ts`). -/
def encodeScore (s : Score) : Json :=
  match s.ts with
  | some t =>
    Json.obj [("name", Json.str s.name), ("correct", Json.num s.correct),
      ("total", Json.num s.total), ("ts", Json.num t)]
  | none =>
    Json.obj [("name", Json.str s.name), ("correct", Json.num s.correct),
      ("total", Json.num s.total)]

/-- JSON encoding of a stored score list. -/
def encodeScores (l : List Score) : Json := Json.arr (l.map encodeScore)

/-- `setScoresInStorage` (script.js lines 410-415): the exact string written
under the `"scores"` key, `JSON.stringify(scoresArray)`. -/
def setScoresInStorage (scoresArray : List Score) : String :=
  Json.stringify (encodeScores scoresArray)

/-- `getScoresFromStorage` (script.js lines 394-407): the value the caller
receives for a given stored cell. `none` models an absent key; the empty
string is falsy and short-circuits like absence; a parse failure is caught
and degrades to the empty array. The function is total — the `try/catch`
never lets an exception escape. -/
def getScoresFromStorage (stored : Option String) : Json :=
  match stored with
  | none => Json.arr []
  | some raw =>
    if raw = "" then Json.arr []
    else
      match Json.parse raw with
      | some v => v
      | none => Json.arr []

/-- Shape of a Score Record in the sense of the data model: an object with
keys `name` (string), `correct` and `total` (nonnegative integers) and an
optional integer `ts`, in storage order. -/
def isScoreRecordJson (j : Json) : Bool :=
  match j with
  | Json.obj [("name", Json.str _), ("correct", Json.num c), ("total", Json.num t)] =>
    0 ≤ c && 0 ≤ t
  | Json.obj [("name", Json.str _), ("correct", Json.num c), ("total", Json.num t),
      ("ts", Json.num _)] =>
    0 ≤ c && 0 ≤ t
  | _ => false

/-- Test for a valid JSON array of Score Records. -/
def isScoreArrayJson (j : Json) : Bool :=
  match j with
  | Json.arr es => es.all isScoreRecordJson
  | _ => false

/-- Lower-casing of one character, ASCII range (the names this program
stores are typed into a text input; the model lower-cases ASCII letters). -/
def lowerChar (c : Char) : Char :=
  if 65 ≤ c.toNat && c.toNat ≤ 90 then Char.ofNat (c.toNat + 32) else c

/-- Lower-casing of a character list. -/
def lowerList (cs : List Char) : List Char := cs.map lowerChar

/-- Boolean list-prefix test. -/
def startsWithList : List Char → List Char → Bool
  | [], _ => true
  | _ :: _, [] => false
  | a :: as, b :: bs => a == b && startsWithList as bs

/-- Boolean substring-occurrence test on character lists, modelling
`String.prototype.includes`. -/
def containsSub (needle : List Char) : List Char → Bool
  | [] => startsWithList needle []
  | c :: t => startsWithList needle (c :: t) || containsSub needle t

/-- Modelled from the spec: the scoreboard filter described in section 4.3
(`buildView`) is absent from every source file under `src/`; following the
spec wording, a record is visible when the lower-cased filter text occurs as
a substring of the lower-cased record name. -/
def matchesFilter (filterText : String) (r : Score) : Bool :=
  containsSub (lowerList filterText.data) (lowerList r.name.data)

/-- Modelled from the spec: the visible rows of `buildView`, the records
whose names match the filter. -/
def filterView (filterText : String) (records : List Score) : List Score :=
  records.filter (matchesFilter filterText)

/-- Modelled from the spec: the weighted average of `buildView`,
`round(sum(correct)/sum(total)*100)` over the visible rows, undefined
(hidden) when there are no visible rows or the total sum is zero. -/
def weightedAverage (visible : List Score) : Option Int :=
  let sc := (visible.map Score.correct).sum
  let st := (visible.map Score.total).sum
  if visible.isEmpty || st == 0 then none
  else some (jsRound ((sc : ℚ) / (st : ℚ) * 100))

/-- Condition on the characters following a number literal: the maximal
digit run must stop there. -/
def headNotDigit : List Char → Prop
  | [] => True
  | c :: _ => isDigitChar c = false

/-- Specification-side read-back of a decimal accumulator: `dpush a n` is the
value obtained by folding the digits of `n` onto the accumulator `a`. -/
def dpush (a n : Nat) : Nat :=
  if h : n < 10 then 10 * a + n
  else 10 * dpush a (n / 10) + n % 10
termination_by n
decreasing_by exact Nat.div_lt_self (by omega) (by omega)

/-! ### Helper lemmas -/

theorem ratio_nonneg (s : Score) : 0 ≤ Score.ratio s := by
  unfold Score.ratio
  split
  · exact le_refl 0
  · positivity

theorem jsRound_mono {x y : ℚ} (h : x ≤ y) : jsRound x ≤ jsRound y := by
  unfold jsRound
  exact Int.floor_le_floor (by linarith)

theorem pctRound_nonneg (s : Score) : 0 ≤ Score.pctRound s := by
  unfold Score.pctRound jsRound
  rw [Int.le_floor]
  have := ratio_nonneg s
  push_cast
  nlinarith

theorem pctRound_le_of_ratio_le {a b : Score} (h : Score.ratio a ≤ Score.ratio b) :
    Score.pctRound a ≤ Score.pctRound b := by
  unfold Score.pctRound
  exact jsRound_mono (by nlinarith)

theorem highestRel_iff {a b : Score} :
    highestRel a b ↔
      Score.ratio b < Score.ratio a ∨
        (Score.ratio a = Score.ratio b ∧ Score.tsOr0 b ≤ Score.tsOr0 a) := by
  unfold highestRel cmpHighest
  by_cases h : Score.ratio b = Score.ratio a
  · rw [if_neg (by simp [h])]
    constructor
    · intro hts
      refine Or.inr ⟨h.symm, ?_⟩
      have : (Score.tsOr0 b : ℚ) ≤ (Score.tsOr0 a : ℚ) := by linarith
      exact_mod_cast this
    · rintro (hlt | ⟨_, hts⟩)
      · exact absurd h (ne_of_lt (h ▸ hlt)).symm
      · have : (Score.tsOr0 b : ℚ) ≤ (Score.tsOr0 a : ℚ) := by exact_mod_cast hts
        linarith
  · rw [if_pos h]
    constructor
    · intro hsub
      exact Or.inl (lt_of_le_of_ne (by linarith) h)
    · rintro (hlt | ⟨heq, _⟩)
      · linarith
      · exact absurd heq.symm h

instance : IsTotal Score highestRel := by
  constructor
  intro a b
  rcases lt_trichotomy (Score.ratio a) (Score.ratio b) with h | h | h
  · exact Or.inr (highestRel_iff.mpr (Or.inl h))
  · rcases le_total (Score.tsOr0 b) (Score.tsOr0 a) with hts | hts
    · exact Or.inl (highestRel_iff.mpr (Or.inr ⟨h, hts⟩))
    · exact Or.inr (highestRel_iff.mpr (Or.inr ⟨h.symm, hts⟩))
  · exact Or.inl (highestRel_iff.mpr (Or.inl h))

instance : IsTrans Score highestRel := by
  constructor
  intro a b c hab hbc
  rcases highestRel_iff.mp hab with h1 | ⟨h1, hts1⟩ <;>
    rcases highestRel_iff.mp hbc with h2 | ⟨h2, hts2⟩ <;>
      apply highestRel_iff.mpr
  · exact Or.inl (lt_trans h2 h1)
  · exact Or.inl (h2 ▸ h1)
  · exact Or.inl (h1 ▸ h2)
  · exact Or.inr ⟨h1.trans h2, hts2.trans hts1⟩

theorem topStep_eq_max (b : Int) (s : Score) :
    topStep b s = max b (Score.pctRound s) := by
  unfold topStep
  rcases lt_or_ge b (Score.pctRound s) with h | h
  · rw [if_pos h, max_eq_right (le_of_lt h)]
  · rw [if_neg (not_lt.mpr h), max_eq_left h]

theorem le_foldl_topStep : ∀ (l : List Score) (b : Int), b ≤ l.foldl topStep b := by
  intro l
  induction l with
  | nil => intro b; exact le_refl b
  | cons s t ih =>
    intro b
    calc b ≤ max b (Score.pctRound s) := le_max_left _ _
    _ ≤ t.foldl topStep (max b (Score.pctRound s)) := ih _
    _ = (s :: t).foldl topStep b := by rw [List.foldl_cons, topStep_eq_max]

theorem pct_le_foldl_topStep :
    ∀ (l : List Score) (b : Int) (s : Score), s ∈ l →
      Score.pctRound s ≤ l.foldl topStep b := by
  intro l
  induction l with
  | nil => intro b s hs; cases hs
  | cons x t ih =>
    intro b s hs
    rw [List.foldl_cons, topStep_eq_max]
    rcases List.mem_cons.mp hs with rfl | hmem
    · calc Score.pctRound s ≤ max b (Score.pctRound s) := le_max_right _ _
      _ ≤ _ := le_foldl_topStep _ _
    · exact ih _ s hmem

theorem foldl_topStep_cases :
    ∀ (l : List Score) (b : Int),
      l.foldl topStep b = b ∨ ∃ s ∈ l, l.foldl topStep b = Score.pctRound s := by
  intro l
  induction l with
  | nil => intro b; exact Or.inl rfl
  | cons x t ih =>
    intro b
    rw [List.foldl_cons, topStep_eq_max]
    rcases ih (max b (Score.pctRound x)) with heq | ⟨s, hs, heq⟩
    · rw [heq]
      rcases max_cases b (Score.pctRound x) with ⟨hm, _⟩ | ⟨hm, _⟩
      · exact Or.inl hm
      · exact Or.inr ⟨x, List.mem_cons_self x t, hm⟩
    · exact Or.inr ⟨s, List.mem_cons_of_mem x hs, heq⟩

theorem topPercentFold_is_max {shown : List Score} (hne : shown ≠ []) :
    (∀ s ∈ shown, Score.pctRound s ≤ topPercentFold shown) ∧
      ∃ s ∈ shown, Score.pctRound s = topPercentFold shown := by
  constructor
  · intro s hs
    exact pct_le_foldl_topStep shown 0 s hs
  · rcases foldl_topStep_cases shown 0 with heq | ⟨s, hs, heq⟩
    · cases shown with
      | nil => exact absurd rfl hne
      | cons x t =>
        refine ⟨x, List.mem_cons_self x t, ?_⟩
        have h1 : Score.pctRound x ≤ topPercentFold (x :: t) :=
          pct_le_foldl_topStep _ 0 x (List.mem_cons_self x t)
        have h2 : topPercentFold (x :: t) = 0 := heq
        have h0 : 0 ≤ Score.pctRound x := pctRound_nonneg x
        omega
    · exact ⟨s, hs, heq.symm⟩

/-! ### Claim theorems -/

/-- C1: for the `"highest"` sort preference, `displayScores` orders records by
ratio `correct/total` descending (ratio `0` when `total = 0`), ties broken by
timestamp descending with a missing timestamp treated as `0`; sorting the
records `2/5, 4/5, 1/5` yields the order `4/5, 2/5, 1/5`. -/
theorem C1_highest_sort_order :
    ∀ l : List Score,
      (sortScores "highest" l).Perm l ∧
      List.Pairwise
        (fun a b =>
          Score.ratio b < Score.ratio a ∨
            (Score.ratio a = Score.ratio b ∧ Score.tsOr0 b ≤ Score.tsOr0 a))
        (sortScores "highest" l) ∧
      sortScores "highest"
          [⟨"a", 2, 5, none⟩, ⟨"b", 4, 5, none⟩, ⟨"c", 1, 5, none⟩] =
        [⟨"b", 4, 5, none⟩, ⟨"a", 2, 5, none⟩, ⟨"c", 1, 5, none⟩] := by
  intro l
  have hdef : ∀ m : List Score, sortScores "highest" m = List.insertionSort highestRel m := by
    intro m; rfl
  refine ⟨?_, ?_, ?_⟩
  · rw [hdef]
    exact List.perm_insertionSort highestRel l
  · rw [hdef]
    exact (List.sorted_insertionSort highestRel l).imp (fun h => highestRel_iff.mp h)
  · rw [hdef]
    norm_num [List.insertionSort, List.orderedInsert, highestRel, cmpHighest,
      Score.ratio, Score.tsOr0]

/-- C2: the top percentage reported by the first `displayScores` is the
maximum over all shown records of `Math.round((correct/total)*100)` (with `0`
when `total = 0`), every shown record whose rounded percentage equals that
integer is flagged `top`, and the reported count is the number of such
records; for `[{5,5},{4,5},{5,5}]` the top percentage is `100` with count `2`. -/
theorem C2_top_percent_and_count (shown : List Score) (hne : shown ≠ []) :
    (∀ s ∈ shown, Score.pctRound s ≤ topPercentFold shown) ∧
    (∃ s ∈ shown, Score.pctRound s = topPercentFold shown) ∧
    (∀ s : Score, (Score.pctRound s == topPercentFold shown) = true ↔
      Score.pctRound s = topPercentFold shown) ∧
    topCountFold shown =
      (shown.filter (fun s => Score.pctRound s == topPercentFold shown)).length ∧
    topPercentFold [⟨"a", 5, 5, none⟩, ⟨"b", 4, 5, none⟩, ⟨"c", 5, 5, none⟩] = 100 ∧
    topCountFold [⟨"a", 5, 5, none⟩, ⟨"b", 4, 5, none⟩, ⟨"c", 5, 5, none⟩] = 2 := by
  obtain ⟨hle, hmem⟩ := topPercentFold_is_max hne
  have hex1 : topPercentFold [⟨"a", 5, 5, none⟩, ⟨"b", 4, 5, none⟩, ⟨"c", 5, 5, none⟩]
      = 100 := by
    norm_num [topPercentFold, List.foldl, topStep, Score.pctRound, jsRound, Score.ratio]
  refine ⟨hle, hmem, ?_, ?_, hex1, ?_⟩
  · intro s
    exact beq_iff_eq
  · exact List.countP_eq_length_filter _ _
  · norm_num [topCountFold, List.countP, List.countP.go, hex1,
      Score.pctRound, jsRound, Score.ratio]
    decide

/-- C2 witness: the theorem instantiated at the three-record example list. -/
theorem C2_top_percent_and_count_witness :
    ([⟨"a", 5, 5, none⟩, ⟨"b", 4, 5, none⟩, ⟨"c", 5, 5, none⟩] : List Score) ≠ [] ∧
    topPercentFold [⟨"a", 5, 5, none⟩, ⟨"b", 4, 5, none⟩, ⟨"c", 5, 5, none⟩] = 100 ∧
    topCountFold [⟨"a", 5, 5, none⟩, ⟨"b", 4, 5, none⟩, ⟨"c", 5, 5, none⟩] = 2 := by
  refine ⟨by decide, ?_, ?_⟩
  · exact (C2_top_percent_and_count
      [⟨"a", 5, 5, none⟩, ⟨"b", 4, 5, none⟩, ⟨"c", 5, 5, none⟩] (by decide)).2.2.2.2.1
  · exact (C2_top_percent_and_count
      [⟨"a", 5, 5, none⟩, ⟨"b", 4, 5, none⟩, ⟨"c", 5, 5, none⟩] (by decide)).2.2.2.2.2

/-- C9: the two `displayScores` versions agree on the top percentage — the
fold of `max` over rounded percentages with initial accumulator `0` equals
the rounded percentage of the first record after sorting by the
highest/newest comparator, for every nonempty record list. -/
theorem C9_top_percent_refinement (l : List Score) (hne : l ≠ []) :
    topPercentV2 l = some (topPercentFold l) := by
  cases hs : sortedV2 l with
  | nil =>
    have : l = [] := by
      have hperm : List.Perm (sortedV2 l) l := List.perm_insertionSort highestRel l
      rw [hs] at hperm
      exact (List.Perm.nil_eq hperm).symm
    exact absurd this hne
  | cons h t =>
    have hperm : List.Perm (sortedV2 l) l := List.perm_insertionSort highestRel l
    have hmem : h ∈ l := hperm.mem_iff.mp (hs ▸ List.mem_cons_self h t)
    have hsorted : List.Sorted highestRel (h :: t) := by
      rw [← hs]
      exact List.sorted_insertionSort highestRel l
    have hub : topPercentFold l ≤ Score.pctRound h := by
      rcases foldl_topStep_cases l 0 with heq | ⟨s, hsl, heq⟩
      · rw [topPercentFold, heq]
        exact pctRound_nonneg h
      · rw [topPercentFold, heq]
        have hmem' : s ∈ sortedV2 l := hperm.mem_iff.mpr hsl
        rw [hs] at hmem'
        rcases List.mem_cons.mp hmem' with rfl | hmem'
        · exact le_refl _
        · have hrel : highestRel h s := List.rel_of_sorted_cons hsorted s hmem'
          rcases highestRel_iff.mp hrel with hlt | ⟨heq2, _⟩
          · exact pctRound_le_of_ratio_le (le_of_lt hlt)
          · exact pctRound_le_of_ratio_le (le_of_eq heq2.symm)
    have hlb : Score.pctRound h ≤ topPercentFold l :=
      pct_le_foldl_topStep l 0 h hmem
    have : Score.pctRound h = topPercentFold l := le_antisymm hlb hub
    rw [topPercentV2, hs]
    exact congrArg some this

/-- C9 witness: both versions compute top percentage `50` on a singleton. -/
theorem C9_top_percent_refinement_witness :
    ([⟨"a", 1, 2, some 7⟩] : List Score) ≠ [] ∧
    topPercentV2 [⟨"a", 1, 2, some 7⟩] = some (topPercentFold [⟨"a", 1, 2, some 7⟩]) :=
  ⟨by decide, C9_top_percent_refinement _ (by decide)⟩

/-- C10 counterexample: the empty string is a stored sort preference outside
`{newest, oldest, highest, lowest}`, yet `getSortPreference` does not return
it verbatim — it is falsy and defaults to `"newest"` — and `displayScores`
then does sort, reordering a two-record list out of stored order. -/
theorem C10_counterexample :
    getSortPreference (some "") ≠ "" ∧
    getSortPreference (some "") = "newest" ∧
    sortScores (getSortPreference (some ""))
        [⟨"a", 0, 1, some 1⟩, ⟨"b", 0, 1, some 2⟩] ≠
      [⟨"a", 0, 1, some 1⟩, ⟨"b", 0, 1, some 2⟩] := by
  refine ⟨by decide, by decide, ?_⟩
  intro h
  have : sortScores (getSortPreference (some ""))
      [⟨"a", 0, 1, some 1⟩, ⟨"b", 0, 1, some 2⟩] =
      [⟨"b", 0, 1, some 2⟩, ⟨"a", 0, 1, some 1⟩] := by
    norm_num [getSortPreference, sortScores, List.insertionSort, List.orderedInsert,
      newestRel, cmpNewest, Score.tsOr0]
  rw [this] at h
  exact absurd h (by decide)

/-- C10 as amended: for every stored nonempty sort-preference string outside
the four recognised values, `getSortPreference` returns it verbatim, no sort
branch fires, and the records keep their stored order. -/
theorem C10_unknown_pref_no_sort (pref : String) (l : List Score)
    (hmem : pref ∉ ["newest", "oldest", "highest", "lowest"]) (hne : pref ≠ "") :
    getSortPreference (some pref) = pref ∧
      sortScores (getSortPreference (some pref)) l = l := by
  have h1 : pref ≠ "newest" := by intro hc; exact hmem (by rw [hc]; decide)
  have h2 : pref ≠ "oldest" := by intro hc; exact hmem (by rw [hc]; decide)
  have h3 : pref ≠ "highest" := by intro hc; exact hmem (by rw [hc]; decide)
  have h4 : pref ≠ "lowest" := by intro hc; exact hmem (by rw [hc]; decide)
  have hpref : getSortPreference (some pref) = pref := by
    show (if pref = "" then "newest" else pref) = pref
    rw [if_neg hne]
  refine ⟨hpref, ?_⟩
  rw [hpref]
  unfold sortScores
  rw [if_neg h1, if_neg h2, if_neg h3, if_neg h4]

/-- C10 witness: the amended claim instantiated at the preference `"zzz"`
and a two-record list kept in stored order. -/
theorem C10_unknown_pref_no_sort_witness :
    ("zzz" ∉ ["newest", "oldest", "highest", "lowest"] ∧ "zzz" ≠ "") ∧
    getSortPreference (some "zzz") = "zzz" ∧
      sortScores (getSortPreference (some "zzz"))
        [⟨"a", 0, 1, some 1⟩, ⟨"b", 0, 1, some 2⟩] =
      [⟨"a", 0, 1, some 1⟩, ⟨"b", 0, 1, some 2⟩] :=
  ⟨⟨by decide, by decide⟩,
    C10_unknown_pref_no_sort "zzz" _ (by decide) (by decide)⟩

/-- C5 counterexample: the `part_000` submit handler appends a score record
even though the single rendered question is unanswered, so the stored list
grows from length `0` to length `1`. -/
theorem C5_counterexample :
    ([Option.none] : List AnswerState).any Option.isNone = true ∧
    handleFormSubmitP0 [Option.none] "Bob" [] ≠ [] ∧
    (handleFormSubmitP0 [Option.none] "Bob" []).length ≠ ([] : List Score).length := by
  refine ⟨by decide, by decide, by decide⟩

/-- C5 as amended: in the validating submit handler of script.js, any
unanswered rendered question aborts the submission before persisting — the
stored score list is returned unchanged (same length and contents). -/
theorem C5_unanswered_blocks_persist (blocks : List AnswerState)
    (username : String) (stored : List Score) (now : Nat)
    (h : blocks.any Option.isNone = true) :
    handleFormSubmit blocks username stored now = stored := by
  unfold handleFormSubmit
  rw [if_pos h]

/-- C5 witness: a one-question form with no selection leaves an empty stored
list empty. -/
theorem C5_unanswered_blocks_persist_witness :
    ([Option.none] : List AnswerState).any Option.isNone = true ∧
    handleFormSubmit [Option.none] "Bob" [] 0 = [] :=
  ⟨by decide, C5_unanswered_blocks_persist [Option.none] "Bob" [] 0 (by decide)⟩

/-! ### Round-trip lemmas for the JSON layer -/

theorem charDigit_toNat {k : Nat} (hk : k < 10) :
    (Char.ofNat (48 + k)).toNat = 48 + k := by
  interval_cases k <;> decide

theorem charDigit_isDigit {k : Nat} (hk : k < 10) :
    isDigitChar (Char.ofNat (48 + k)) = true := by
  interval_cases k <;> decide

theorem natDigitsAux_foldl :
    ∀ (fuel n : Nat) (acc : List Char) (b : Nat), n < fuel →
      List.foldl (fun a c => 10 * a + (c.toNat - 48)) b (natDigitsAux fuel n acc) =
        List.foldl (fun a c => 10 * a + (c.toNat - 48)) (dpush b n) acc := by
  intro fuel
  induction fuel with
  | zero => intro n acc b h; omega
  | succ f ih =>
    intro n acc b h
    rw [natDigitsAux]
    by_cases h10 : n < 10
    · rw [if_pos h10, List.foldl_cons]
      rw [dpush, dif_pos h10]
      congr 1
      rw [charDigit_toNat (Nat.mod_lt n (by omega))]
      have : n % 10 = n := Nat.mod_eq_of_lt h10
      omega
    · rw [if_neg h10]
      rw [ih (n / 10) _ b (by omega)]
      rw [List.foldl_cons]
      conv_rhs => rw [dpush]
      rw [dif_neg h10]
      congr 1
      rw [charDigit_toNat (Nat.mod_lt n (by omega))]
      omega

theorem dpush_zero (n : Nat) : dpush 0 n = n := by
  induction n using Nat.strong_induction_on with
  | _ n ih =>
    rw [dpush]
    by_cases h : n < 10
    · rw [dif_pos h]
      omega
    · rw [dif_neg h, ih (n / 10) (Nat.div_lt_self (by omega) (by omega))]
      omega

theorem digitsVal_natDigits (n : Nat) : digitsVal (natDigits n) = n := by
  unfold digitsVal natDigits
  rw [natDigitsAux_foldl (n + 1) n [] 0 (by omega)]
  exact dpush_zero n

theorem natDigitsAux_digits :
    ∀ (fuel n : Nat) (acc : List Char), (∀ c ∈ acc, isDigitChar c = true) →
      ∀ c ∈ natDigitsAux fuel n acc, isDigitChar c = true := by
  intro fuel
  induction fuel with
  | zero =>
    intro n acc hacc c hc
    rw [natDigitsAux] at hc
    exact hacc c hc
  | succ f ih =>
    intro n acc hacc c hc
    rw [natDigitsAux] at hc
    by_cases h10 : n < 10
    · rw [if_pos h10] at hc
      rcases List.mem_cons.mp hc with rfl | hmem
      · exact charDigit_isDigit (Nat.mod_lt n (by omega))
      · exact hacc c hmem
    · rw [if_neg h10] at hc
      refine ih (n / 10) _ ?_ c hc
      intro d hd
      rcases List.mem_cons.mp hd with rfl | hmem
      · exact charDigit_isDigit (Nat.mod_lt n (by omega))
      · exact hacc d hmem

theorem natDigits_digits (n : Nat) : ∀ c ∈ natDigits n, isDigitChar c = true :=
  natDigitsAux_digits (n + 1) n [] (by intro c hc; cases hc)

theorem natDigitsAux_ne_nil :
    ∀ (fuel n : Nat) (acc : List Char), n < fuel → natDigitsAux fuel n acc ≠ [] := by
  intro fuel
  induction fuel with
  | zero => intro n acc h; omega
  | succ f ih =>
    intro n acc h
    rw [natDigitsAux]
    by_cases h10 : n < 10
    · rw [if_pos h10]
      exact List.cons_ne_nil _ _
    · rw [if_neg h10]
      have hn : 0 < n := by omega
      exact ih (n / 10) _ (by omega)

theorem natDigits_ne_nil (n : Nat) : natDigits n ≠ [] :=
  natDigitsAux_ne_nil (n + 1) n [] (by omega)

theorem natDigitsAux_head_pos :
    ∀ (fuel n : Nat) (acc : List Char), n < fuel → 1 ≤ n →
      ∃ k cs, natDigitsAux fuel n acc = Char.ofNat (48 + k) :: cs ∧ 1 ≤ k ∧ k < 10 := by
  intro fuel
  induction fuel with
  | zero => intro n acc h; omega
  | succ f ih =>
    intro n acc hlt hpos
    rw [natDigitsAux]
    by_cases h10 : n < 10
    · rw [if_pos h10]
      refine ⟨n, acc, ?_, hpos, h10⟩
      rw [Nat.mod_eq_of_lt h10]
    · rw [if_neg h10]
      exact ih (n / 10) _ (by omega) (by omega)

theorem takeDigits_append :
    ∀ (ds rest : List Char), (∀ c ∈ ds, isDigitChar c = true) → headNotDigit rest →
      takeDigits (ds ++ rest) = (ds, rest) := by
  intro ds
  induction ds with
  | nil =>
    intro rest hds hrest
    cases rest with
    | nil => rfl
    | cons c t =>
      have hc : isDigitChar c = false := hrest
      simp [takeDigits, hc]
  | cons c t ih =>
    intro rest hds hrest
    have hc : isDigitChar c = true := hds c (List.mem_cons_self c t)
    simp only [List.cons_append, takeDigits, hc, if_true, List.append_eq]
    rw [ih rest (fun d hd => hds d (List.mem_cons_of_mem c hd)) hrest]

theorem hasLeadingZero_natDigits (n : Nat) : hasLeadingZero (natDigits n) = false := by
  by_cases hn : n = 0
  · subst hn; rfl
  · by_cases h10 : n < 10
    · have : natDigits n = [Char.ofNat (48 + n % 10)] := by
        unfold natDigits
        rw [natDigitsAux, if_pos h10]
      rw [this]
      rfl
    · obtain ⟨k, cs, hEq, hk1, hk10⟩ :=
        natDigitsAux_head_pos (n + 1) n [] (by omega) (by omega)
      rw [show natDigits n = Char.ofNat (48 + k) :: cs from hEq]
      cases cs with
      | nil => rfl
      | cons c2 t =>
        show (Char.ofNat (48 + k) == '0') = false
        refine beq_eq_false_iff_ne.mpr ?_
        intro h
        have := congrArg Char.toNat h
        rw [charDigit_toNat hk10] at this
        simp at this
        omega

theorem parseNumLit_natDigits (n : Nat) (rest : List Char) (hrest : headNotDigit rest) :
    parseNumLit (natDigits n ++ rest) = some (n, rest) := by
  unfold parseNumLit
  rw [takeDigits_append _ _ (natDigits_digits n) hrest]
  simp only []
  rw [if_neg (natDigits_ne_nil n)]
  rw [hasLeadingZero_natDigits n]
  rw [if_neg (by simp)]
  rw [digitsVal_natDigits]

theorem hexVal_hexDigitChar {k : Nat} (hk : k < 16) : hexVal (hexDigitChar k) = some k := by
  interval_cases k <;> decide

theorem parseStringLoop_unicode_step (k v : Nat) (acc cs : List Char) (c : Char)
    (d : Nat) (hd : hexVal c = some d) (hk : ¬k ≤ 1) :
    parseStringLoop (EscState.unicode k v) acc (c :: cs) =
      parseStringLoop (EscState.unicode (k - 1) (16 * v + d)) acc cs := by
  rw [parseStringLoop, hd]
  exact if_neg hk

theorem parseStringLoop_unicode_last (v : Nat) (acc cs : List Char) (c : Char)
    (d : Nat) (hd : hexVal c = some d) :
    parseStringLoop (EscState.unicode 1 v) acc (c :: cs) =
      parseStringLoop EscState.normal (Char.ofNat (16 * v + d) :: acc) cs := by
  rw [parseStringLoop, hd]
  exact if_pos (by omega)

theorem parseStringLoop_escapeChar (c : Char) (acc ts : List Char) :
    parseStringLoop EscState.normal acc (escapeChar c ++ ts) =
      parseStringLoop EscState.normal (c :: acc) ts := by
  unfold escapeChar
  by_cases h1 : c = '"'
  · subst h1; rw [if_pos rfl]; rfl
  rw [if_neg h1]
  by_cases h2 : c = '\\'
  · subst h2; rw [if_pos rfl]; rfl
  rw [if_neg h2]
  by_cases h3 : c = '\x08'
  · subst h3; rw [if_pos rfl]; rfl
  rw [if_neg h3]
  by_cases h4 : c = '\x09'
  · subst h4; rw [if_pos rfl]; rfl
  rw [if_neg h4]
  by_cases h5 : c = '\x0a'
  · subst h5; rw [if_pos rfl]; rfl
  rw [if_neg h5]
  by_cases h6 : c = '\x0c'
  · subst h6; rw [if_pos rfl]; rfl
  rw [if_neg h6]
  by_cases h7 : c = '\x0d'
  · subst h7; rw [if_pos rfl]; rfl
  rw [if_neg h7]
  by_cases h8 : c.toNat < 32
  · rw [if_pos h8]
    have hhi : c.toNat / 16 < 16 := by omega
    have hlo : c.toNat % 16 < 16 := Nat.mod_lt _ (by omega)
    show parseStringLoop (EscState.unicode 2 0) acc
        (hexDigitChar (c.toNat / 16) :: hexDigitChar (c.toNat % 16) :: ts) = _
    rw [parseStringLoop_unicode_step 2 0 _ _ _ _ (hexVal_hexDigitChar hhi) (by omega)]
    rw [parseStringLoop_unicode_last _ _ _ _ _ (hexVal_hexDigitChar hlo)]
    have hcode : 16 * (16 * 0 + c.toNat / 16) + c.toNat % 16 = c.toNat := by omega
    rw [hcode, Char.ofNat_toNat]
  · rw [if_neg h8]
    show parseStringLoop EscState.normal acc (c :: ts) = _
    rw [parseStringLoop]
    rw [if_neg h1, if_neg h2, if_neg h8]

theorem parseStringLoop_escBody :
    ∀ (cs acc rest : List Char),
      parseStringLoop EscState.normal acc (escBody cs ++ '"' :: rest) =
        some (acc.reverse ++ cs, rest) := by
  intro cs
  induction cs with
  | nil =>
    intro acc rest
    show parseStringLoop EscState.normal acc ('"' :: rest) = _
    rw [parseStringLoop, if_pos rfl]
    rw [List.append_nil]
  | cons c t ih =>
    intro acc rest
    show parseStringLoop EscState.normal acc
        ((escapeChar c ++ escBody t) ++ '"' :: rest) = _
    rw [List.append_assoc, parseStringLoop_escapeChar, ih]
    simp

theorem parseStringBody_escBody (cs rest : List Char) :
    parseStringBody (escBody cs ++ '"' :: rest) = some (cs, rest) := by
  unfold parseStringBody
  rw [parseStringLoop_escBody]
  rfl

theorem skipWs_cons (c : Char) (cs : List Char) (h : isJsonWs c = false) :
    skipWs (c :: cs) = c :: cs := by
  unfold skipWs
  simp [h]

theorem notWs_of_digit {c : Char} (h : isDigitChar c = true) : isJsonWs c = false := by
  unfold isDigitChar at h
  simp only [Bool.and_eq_true, decide_eq_true_eq] at h
  unfold isJsonWs
  simp only [Bool.or_eq_false_iff, decide_eq_false_iff_not]
  refine ⟨⟨⟨?_, ?_⟩, ?_⟩, ?_⟩ <;> rintro rfl <;> simp at h

theorem digit_not_keyword {c : Char} (h : isDigitChar c = true) :
    c ≠ 'n' ∧ c ≠ 't' ∧ c ≠ 'f' ∧ c ≠ '"' ∧ c ≠ '-' := by
  refine ⟨?_, ?_, ?_, ?_, ?_⟩ <;> rintro rfl <;> exact absurd h (by decide)

theorem parseF_value_quote (f : Nat) (cs : List Char) :
    parseF (f+1) PMode.value ('"' :: cs) =
      match parseStringBody cs with
      | some (out, r) => some (Json.str (String.mk out), r)
      | none => none := rfl

theorem parseF_value_lbrack (f : Nat) (cs : List Char) :
    parseF (f+1) PMode.value ('[' :: cs) =
      (match skipWs cs with
       | ']' :: r => some (Json.arr [], r)
       | cs2 => parseF f PMode.elems cs2) := rfl

theorem parseF_value_lbrace (f : Nat) (cs : List Char) :
    parseF (f+1) PMode.value ('\x7b' :: cs) =
      (match skipWs cs with
       | '\x7d' :: r => some (Json.obj [], r)
       | cs2 => parseF f PMode.members cs2) := rfl

theorem parseF_elems_unfold (f : Nat) (cs : List Char) :
    parseF (f+1) PMode.elems cs =
      match parseF f PMode.value cs with
      | none => none
      | some (v, r1) =>
        match skipWs r1 with
        | ',' :: r2 =>
          (match parseF f PMode.elems r2 with
           | some (Json.arr vs, r3) => some (Json.arr (v :: vs), r3)
           | _ => none)
        | ']' :: r2 => some (Json.arr [v], r2)
        | _ => none := rfl

theorem parseF_members_quote (f : Nat) (r1 : List Char) :
    parseF (f+1) PMode.members ('"' :: r1) =
      match parseStringBody r1 with
      | none => none
      | some (key, r2) =>
        match skipWs r2 with
        | ':' :: r3 =>
          (match parseF f PMode.value r3 with
           | none => none
           | some (v, r4) =>
             match skipWs r4 with
             | ',' :: r5 =>
               (match parseF f PMode.members r5 with
                | some (Json.obj ms, r6) => some (Json.obj ((String.mk key, v) :: ms), r6)
                | _ => none)
             | '\x7d' :: r5 => some (Json.obj [(String.mk key, v)], r5)
             | _ => none)
        | _ => none := rfl

theorem parseF_value_digit (f : Nat) (c : Char) (cs : List Char) (h : isDigitChar c = true) :
    parseF (f+1) PMode.value (c :: cs) =
      match parseNumLit (c :: cs) with
      | some (n, r) => some (Json.num (n : Int), r)
      | none => none := by
  obtain ⟨hn, ht, hf, hq, hd⟩ := digit_not_keyword h
  rw [parseF]
  rw [skipWs_cons _ _ (notWs_of_digit h)]
  dsimp only
  rw [if_neg hn, if_neg ht, if_neg hf, if_neg hq, if_neg hd, if_pos h]

theorem natDigits_head (n : Nat) :
    ∃ c cs, natDigits n = c :: cs ∧ isDigitChar c = true := by
  cases hEq : natDigits n with
  | nil => exact absurd hEq (natDigits_ne_nil n)
  | cons c cs =>
    exact ⟨c, cs, rfl, natDigits_digits n c (hEq ▸ List.mem_cons_self c cs)⟩

theorem parseF_value_natLit (f n : Nat) (rest : List Char) (h : headNotDigit rest) :
    parseF (f+1) PMode.value (natDigits n ++ rest) = some (Json.num (n : Int), rest) := by
  obtain ⟨c, cs, hEq, hc⟩ := natDigits_head n
  rw [hEq, List.cons_append, parseF_value_digit f c _ hc, ← List.cons_append, ← hEq,
    parseNumLit_natDigits n rest h]

theorem intDigits_natCast (n : Nat) : intDigits (n : Int) = natDigits n := by
  unfold intDigits
  rw [if_neg (by omega), Int.natAbs_ofNat]

theorem parseF_value_string (f : Nat) (s : String) (rest : List Char) :
    parseF (f+1) PMode.value (escapeString s ++ rest) = some (Json.str s, rest) := by
  have hshape : escapeString s ++ rest = '"' :: (escBody s.data ++ '"' :: rest) := by
    unfold escapeString
    simp
  rw [hshape, parseF_value_quote, parseStringBody_escBody]

theorem parseF_members_key (f : Nat) (k : String) (after : List Char) :
    parseF (f+1) PMode.members (escapeString k ++ ':' :: after) =
      (match parseF f PMode.value after with
       | none => none
       | some (v, r4) =>
         match skipWs r4 with
         | ',' :: r5 =>
           (match parseF f PMode.members r5 with
            | some (Json.obj ms, r6) => some (Json.obj ((k, v) :: ms), r6)
            | _ => none)
         | '\x7d' :: r5 => some (Json.obj [(k, v)], r5)
         | _ => none) := by
  have hshape : escapeString k ++ ':' :: after = '"' :: (escBody k.data ++ '"' :: ':' :: after) := by
    unfold escapeString
    simp
  rw [hshape, parseF_members_quote, parseStringBody_escBody]
  dsimp only
  rw [skipWs_cons ':' after (by decide)]
  rfl

theorem parseF_members_num_last (f : Nat) (k : String) (n : Nat) (rest : List Char) :
    parseF (f+2) PMode.members (escapeString k ++ ':' :: (natDigits n ++ '\x7d' :: rest)) =
      some (Json.obj [(k, Json.num (n : Int))], rest) := by
  rw [show f + 2 = (f+1)+1 from rfl, parseF_members_key, parseF_value_natLit f n _ (by exact rfl)]
  dsimp only
  rw [skipWs_cons _ rest (by decide)]
  rfl

theorem parseF_members_num_cons (f : Nat) (k : String) (n : Nat) (next : List Char) :
    parseF (f+2) PMode.members (escapeString k ++ ':' :: (natDigits n ++ ',' :: next)) =
      (match parseF (f+1) PMode.members next with
       | some (Json.obj ms, r6) => some (Json.obj ((k, Json.num (n : Int)) :: ms), r6)
       | _ => none) := by
  rw [show f + 2 = (f+1)+1 from rfl, parseF_members_key, parseF_value_natLit f n _ (by exact rfl)]
  dsimp only
  rw [skipWs_cons _ next (by decide)]
  rfl

theorem parseF_members_str_cons (f : Nat) (k v : String) (next : List Char) :
    parseF (f+2) PMode.members (escapeString k ++ ':' :: (escapeString v ++ ',' :: next)) =
      (match parseF (f+1) PMode.members next with
       | some (Json.obj ms, r6) => some (Json.obj ((k, Json.str v) :: ms), r6)
       | _ => none) := by
  rw [show f + 2 = (f+1)+1 from rfl, parseF_members_key, parseF_value_string f v]
  dsimp only
  rw [skipWs_cons _ next (by decide)]
  rfl

theorem parseF_value_obj_nonempty (f : Nat) (k : String) (tail : List Char) :
    parseF (f+1) PMode.value ('\x7b' :: (escapeString k ++ tail)) =
      parseF f PMode.members (escapeString k ++ tail) := by
  rw [parseF_value_lbrace]
  have hshape : escapeString k ++ tail = '"' :: (escBody k.data ++ '"' :: tail) := by
    unfold escapeString
    simp
  rw [hshape, skipWs_cons _ _ (by decide)]
  rfl

theorem parseF_value_encodeScore (f : Nat) (s : Score) (rest : List Char) :
    parseF (f+6) PMode.value (stringifyChars (encodeScore s) ++ rest) =
      some (encodeScore s, rest) := by
  cases hts : s.ts with
  | none =>
    have henc : encodeScore s =
        Json.obj [("name", Json.str s.name), ("correct", Json.num (s.correct : Int)),
          ("total", Json.num (s.total : Int))] := by
      rw [encodeScore, hts]
    rw [henc]
    have hshape : stringifyChars
          (Json.obj [("name", Json.str s.name), ("correct", Json.num (s.correct : Int)),
            ("total", Json.num (s.total : Int))]) ++ rest =
        '\x7b' :: (escapeString "name" ++ ':' :: (escapeString s.name ++ ',' ::
          (escapeString "correct" ++ ':' :: (natDigits s.correct ++ ',' ::
            (escapeString "total" ++ ':' :: (natDigits s.total ++ '\x7d' :: rest)))))) := by
      show ('\x7b' :: (stringifyMembers _ ++ ['\x7d'])) ++ rest = _
      simp only [stringifyMembers, stringifyChars, intDigits_natCast, List.cons_append,
        List.append_assoc, List.nil_append]
    rw [hshape]
    rw [show f + 6 = (f+5)+1 from rfl]
    rw [show escapeString "name" ++ ':' :: (escapeString s.name ++ ',' ::
          (escapeString "correct" ++ ':' :: (natDigits s.correct ++ ',' ::
            (escapeString "total" ++ ':' :: (natDigits s.total ++ '\x7d' :: rest))))) =
        escapeString "name" ++ (':' :: (escapeString s.name ++ ',' ::
          (escapeString "correct" ++ ':' :: (natDigits s.correct ++ ',' ::
            (escapeString "total" ++ ':' :: (natDigits s.total ++ '\x7d' :: rest)))))) from rfl]
    rw [parseF_value_obj_nonempty (f+5)]
    rw [show f + 5 = (f+3)+2 from by omega]
    rw [parseF_members_str_cons (f+3)]
    rw [show f + 3 + 1 = (f+2)+2 from by omega]
    rw [parseF_members_num_cons (f+2)]
    rw [show f + 2 + 1 = (f+1)+2 from by omega]
    rw [parseF_members_num_last (f+1)]
  | some t =>
    have henc : encodeScore s =
        Json.obj [("name", Json.str s.name), ("correct", Json.num (s.correct : Int)),
          ("total", Json.num (s.total : Int)), ("ts", Json.num (t : Int))] := by
      rw [encodeScore, hts]
    rw [henc]
    have hshape : stringifyChars
          (Json.obj [("name", Json.str s.name), ("correct", Json.num (s.correct : Int)),
            ("total", Json.num (s.total : Int)), ("ts", Json.num (t : Int))]) ++ rest =
        '\x7b' :: (escapeString "name" ++ ':' :: (escapeString s.name ++ ',' ::
          (escapeString "correct" ++ ':' :: (natDigits s.correct ++ ',' ::
            (escapeString "total" ++ ':' :: (natDigits s.total ++ ',' ::
              (escapeString "ts" ++ ':' :: (natDigits t ++ '\x7d' :: rest)))))))) := by
      show ('\x7b' :: (stringifyMembers _ ++ ['\x7d'])) ++ rest = _
      simp only [stringifyMembers, stringifyChars, intDigits_natCast, List.cons_append,
        List.append_assoc, List.nil_append]
    rw [hshape]
    rw [show f + 6 = (f+5)+1 from rfl]
    rw [show escapeString "name" ++ ':' :: (escapeString s.name ++ ',' ::
          (escapeString "correct" ++ ':' :: (natDigits s.correct ++ ',' ::
            (escapeString "total" ++ ':' :: (natDigits s.total ++ ',' ::
              (escapeString "ts" ++ ':' :: (natDigits t ++ '\x7d' :: rest))))))) =
        escapeString "name" ++ (':' :: (escapeString s.name ++ ',' ::
          (escapeString "correct" ++ ':' :: (natDigits s.correct ++ ',' ::
            (escapeString "total" ++ ':' :: (natDigits s.total ++ ',' ::
              (escapeString "ts" ++ ':' :: (natDigits t ++ '\x7d' :: rest)))))))) from rfl]
    rw [parseF_value_obj_nonempty (f+5)]
    rw [show f + 5 = (f+3)+2 from by omega]
    rw [parseF_members_str_cons (f+3)]
    rw [show f + 3 + 1 = (f+2)+2 from by omega]
    rw [parseF_members_num_cons (f+2)]
    rw [show f + 2 + 1 = (f+1)+2 from by omega]
    rw [parseF_members_num_cons (f+1)]
    rw [show f + 1 + 1 = f+2 from by omega]
    rw [parseF_members_num_last f]

theorem parseF_elems_scores :
    ∀ (t2 : List Score) (s : Score) (f : Nat) (rest : List Char),
      parseF ((s :: t2).length + f + 7) PMode.elems
        (stringifyElems ((s :: t2).map encodeScore) ++ ']' :: rest) =
        some (Json.arr ((s :: t2).map encodeScore), rest) := by
  intro t2
  induction t2 with
  | nil =>
    intro s f rest
    have hfuel : ([s] : List Score).length + f + 7 = ((f+1)+6)+1 := by
      simp
      omega
    rw [hfuel]
    show parseF (((f+1)+6)+1) PMode.elems
        (stringifyChars (encodeScore s) ++ ']' :: rest) = _
    rw [parseF_elems_unfold, parseF_value_encodeScore (f+1)]
    dsimp only
    rw [skipWs_cons _ rest (by decide)]
    rfl
  | cons s2 t2 ih =>
    intro s f rest
    have hfuel : (s :: s2 :: t2).length + f + 7 =
        ((s2 :: t2).length + (f+1) + 7 - 1) + 1 := by
      simp
      omega
    rw [hfuel]
    show parseF _ PMode.elems
        ((stringifyChars (encodeScore s) ++
          ',' :: stringifyElems ((s2 :: t2).map encodeScore)) ++ ']' :: rest) = _
    have hshape :
        (stringifyChars (encodeScore s) ++
            ',' :: stringifyElems ((s2 :: t2).map encodeScore)) ++ ']' :: rest =
          stringifyChars (encodeScore s) ++
            (',' :: (stringifyElems ((s2 :: t2).map encodeScore) ++ ']' :: rest)) := by
      simp
    rw [hshape, parseF_elems_unfold]
    have hfuel2 : (s2 :: t2).length + (f+1) + 7 - 1 =
        ((s2 :: t2).length + f + 1) + 6 := by
      simp
      omega
    rw [hfuel2, parseF_value_encodeScore]
    dsimp only
    rw [skipWs_cons _ _ (by decide)]
    have hfuel3 : (s2 :: t2).length + f + 1 + 6 = (s2 :: t2).length + (f + 1) + 7 - 1 := by
      omega
    have hfuel4 : (s2 :: t2).length + (f + 1) + 7 - 1 = (s2 :: t2).length + f + 7 := by
      omega
    rw [hfuel3, hfuel4]
    show (match parseF ((s2 :: t2).length + f + 7) PMode.elems
        (stringifyElems (List.map encodeScore (s2 :: t2)) ++ ']' :: rest) with
      | some (Json.arr vs, r3) => some (Json.arr (encodeScore s :: vs), r3)
      | _ => none) = some (Json.arr (List.map encodeScore (s :: s2 :: t2)), rest)
    rw [ih s2 f rest]
    rfl

theorem length_stringify_encodeScore (s : Score) :
    10 ≤ (stringifyChars (encodeScore s)).length := by
  have h1 : (escapeString "name").length = 6 := rfl
  have h2 : (escapeString "correct").length = 9 := rfl
  have h3 : (escapeString "total").length = 7 := rfl
  have h4 : (escapeString "ts").length = 4 := rfl
  cases hts : s.ts with
  | none =>
    rw [show encodeScore s =
        Json.obj [("name", Json.str s.name), ("correct", Json.num (s.correct : Int)),
          ("total", Json.num (s.total : Int))] from by rw [encodeScore, hts]]
    show ('\x7b' :: (stringifyMembers _ ++ ['\x7d'])).length ≥ 10
    simp only [stringifyMembers, stringifyChars, List.length_cons, List.length_append,
      h1, h2, h3]
    omega
  | some t =>
    rw [show encodeScore s =
        Json.obj [("name", Json.str s.name), ("correct", Json.num (s.correct : Int)),
          ("total", Json.num (s.total : Int)), ("ts", Json.num (t : Int))] from by
      rw [encodeScore, hts]]
    show ('\x7b' :: (stringifyMembers _ ++ ['\x7d'])).length ≥ 10
    simp only [stringifyMembers, stringifyChars, List.length_cons, List.length_append,
      h1, h2, h3, h4]
    omega

theorem length_stringifyElems_scores :
    ∀ (t2 : List Score) (s : Score),
      (s :: t2).length + 6 ≤ (stringifyElems ((s :: t2).map encodeScore)).length := by
  intro t2
  induction t2 with
  | nil =>
    intro s
    show _ ≤ (stringifyChars (encodeScore s)).length
    have := length_stringify_encodeScore s
    simp only [List.length_singleton]
    omega
  | cons s2 t2 ih =>
    intro s
    show _ ≤ (stringifyChars (encodeScore s) ++
        ',' :: stringifyElems ((s2 :: t2).map encodeScore)).length
    have hx := length_stringify_encodeScore s
    have hy := ih s2
    simp only [List.length_append, List.length_cons] at *
    omega

theorem stringify_encodeScore_head (s : Score) :
    ∃ tl, stringifyChars (encodeScore s) = '\x7b' :: tl := by
  cases hts : s.ts with
  | none =>
    rw [show encodeScore s =
        Json.obj [("name", Json.str s.name), ("correct", Json.num (s.correct : Int)),
          ("total", Json.num (s.total : Int))] from by rw [encodeScore, hts]]
    exact ⟨_, rfl⟩
  | some t =>
    rw [show encodeScore s =
        Json.obj [("name", Json.str s.name), ("correct", Json.num (s.correct : Int)),
          ("total", Json.num (s.total : Int)), ("ts", Json.num (t : Int))] from by
      rw [encodeScore, hts]]
    exact ⟨_, rfl⟩

theorem stringifyElems_scores_head (s : Score) (t2 : List Score) :
    ∃ tl, stringifyElems ((s :: t2).map encodeScore) = '\x7b' :: tl := by
  obtain ⟨tl1, htl1⟩ := stringify_encodeScore_head s
  cases t2 with
  | nil => exact ⟨tl1, htl1⟩
  | cons s2 t2 =>
    refine ⟨tl1 ++ ',' :: stringifyElems ((s2 :: t2).map encodeScore), ?_⟩
    show stringifyChars (encodeScore s) ++
        ',' :: stringifyElems ((s2 :: t2).map encodeScore) = _
    rw [htl1]
    rfl

theorem parse_setScores (l : List Score) :
    Json.parse (setScoresInStorage l) = some (encodeScores l) := by
  cases l with
  | nil => rfl
  | cons s t2 =>
    unfold setScoresInStorage Json.stringify Json.parse encodeScores
    have hdata : ∀ cs : List Char, (String.mk cs).data = cs := fun _ => rfl
    have hlen : ∀ cs : List Char, (String.mk cs).length = cs.length := fun _ => rfl
    rw [hdata, hlen]
    show (match parseF
        (2 * (stringifyChars (Json.arr ((s :: t2).map encodeScore))).length + 2)
        PMode.value (stringifyChars (Json.arr ((s :: t2).map encodeScore))) with
      | some (v, rest) => if skipWs rest = [] then some v else none
      | none => none) = _
    have hchars : stringifyChars (Json.arr ((s :: t2).map encodeScore)) =
        '[' :: (stringifyElems ((s :: t2).map encodeScore) ++ [']']) := rfl
    have hL := length_stringifyElems_scores t2 s
    have hlenchars : (stringifyChars (Json.arr ((s :: t2).map encodeScore))).length =
        (stringifyElems ((s :: t2).map encodeScore)).length + 2 := by
      rw [hchars]
      simp
    rw [hlenchars, hchars]
    have hfuel : 2 * ((stringifyElems ((s :: t2).map encodeScore)).length + 2) + 2 =
        (2 * (stringifyElems ((s :: t2).map encodeScore)).length + 5) + 1 := by omega
    rw [hfuel, parseF_value_lbrack]
    obtain ⟨tl, htl⟩ := stringifyElems_scores_head s t2
    have hbody : stringifyElems ((s :: t2).map encodeScore) ++ [']'] =
        '\x7b' :: (tl ++ [']']) := by
      rw [htl]
      rfl
    rw [hbody, skipWs_cons _ _ (by decide)]
    show (match parseF (2 * (stringifyElems ((s :: t2).map encodeScore)).length + 5)
        PMode.elems ('\x7b' :: (tl ++ [']'])) with
      | some (v, rest) => if skipWs rest = [] then some v else none
      | none => none) = _
    rw [show '\x7b' :: (tl ++ [']']) =
        stringifyElems ((s :: t2).map encodeScore) ++ ']' :: [] from by rw [htl]; rfl]
    have hfuel2 : 2 * (stringifyElems ((s :: t2).map encodeScore)).length + 5 =
        (s :: t2).length +
          (2 * (stringifyElems ((s :: t2).map encodeScore)).length - (s :: t2).length - 2)
          + 7 := by
      simp only [List.length_cons] at *
      omega
    rw [hfuel2, parseF_elems_scores]
    rfl

theorem setScores_ne_empty (l : List Score) : setScoresInStorage l ≠ "" := by
  unfold setScoresInStorage Json.stringify encodeScores
  intro h
  have hd := congrArg String.data h
  show False
  rw [show (String.mk (stringifyChars (Json.arr (l.map encodeScore)))).data =
      stringifyChars (Json.arr (l.map encodeScore)) from rfl] at hd
  rw [show stringifyChars (Json.arr (l.map encodeScore)) =
      '[' :: (stringifyElems (l.map encodeScore) ++ [']']) from rfl] at hd
  simp at hd

theorem getScores_set_roundtrip (l : List Score) :
    getScoresFromStorage (some (setScoresInStorage l)) = encodeScores l := by
  show (if setScoresInStorage l = "" then Json.arr []
    else
      match Json.parse (setScoresInStorage l) with
      | some v => v
      | none => Json.arr []) = encodeScores l
  rw [if_neg (setScores_ne_empty l), parse_setScores]

theorem encodeScores_isScoreArray (l : List Score) :
    isScoreArrayJson (encodeScores l) = true := by
  show (l.map encodeScore).all isScoreRecordJson = true
  rw [List.all_eq_true]
  intro j hj
  obtain ⟨s, _, rfl⟩ := List.mem_map.mp hj
  cases hts : s.ts with
  | none =>
    rw [show encodeScore s =
        Json.obj [("name", Json.str s.name), ("correct", Json.num (s.correct : Int)),
          ("total", Json.num (s.total : Int))] from by rw [encodeScore, hts]]
    show (decide (0 ≤ (s.correct : Int)) && decide (0 ≤ (s.total : Int))) = true
    simp
  | some t =>
    rw [show encodeScore s =
        Json.obj [("name", Json.str s.name), ("correct", Json.num (s.correct : Int)),
          ("total", Json.num (s.total : Int)), ("ts", Json.num (t : Int))] from by
      rw [encodeScore, hts]]
    show (decide (0 ≤ (s.correct : Int)) && decide (0 ≤ (s.total : Int))) = true
    simp

theorem containsSub_nil_needle : ∀ hay : List Char, containsSub [] hay = true
  | [] => rfl
  | _ :: t => by
    show (startsWithList [] _ || containsSub [] t) = true
    rw [containsSub_nil_needle t]
    simp [startsWithList]

/-- C3: a stored `"scores"` string that does not parse as JSON makes
`getScoresFromStorage` return the empty array, and an absent key does too;
the embedded function is total, so no exception can escape. -/
theorem C3_unparseable_storage_empty :
    (∀ s : String, Json.parse s = none → getScoresFromStorage (some s) = Json.arr []) ∧
    getScoresFromStorage none = Json.arr [] := by
  constructor
  · intro s hs
    show (if s = "" then Json.arr []
      else
        match Json.parse s with
        | some v => v
        | none => Json.arr []) = Json.arr []
    by_cases h : s = ""
    · rw [if_pos h]
    · rw [if_neg h, hs]
  · rfl

/-- C3 witness: the concrete non-JSON string `"oops"` reads back as the
empty array. -/
theorem C3_unparseable_storage_empty_witness :
    Json.parse "oops" = none ∧ getScoresFromStorage (some "oops") = Json.arr [] :=
  ⟨rfl, C3_unparseable_storage_empty.1 "oops" rfl⟩

/-- C4 counterexample: the stored string `"42"` is valid JSON, so
`getScoresFromStorage` returns the number `42` unchanged — a value that is
neither a JSON array of Score Records nor the empty list, contradicting the
claim that every read yields such an array. -/
theorem C4_counterexample :
    getScoresFromStorage (some "42") = Json.num 42 ∧
    isScoreArrayJson (getScoresFromStorage (some "42")) = false :=
  ⟨rfl, rfl⟩

/-- C4 as amended: every read returns either the empty array (absent key,
empty string, or parse failure) or exactly the JSON value parsed from the
stored text — which need not be an array of Score Records; lists written by
`setScoresInStorage` do read back as valid Score Record arrays. -/
theorem C4_read_is_parsed_or_empty :
    (∀ stored : Option String,
      getScoresFromStorage stored = Json.arr [] ∨
        ∃ raw, stored = some raw ∧ Json.parse raw = some (getScoresFromStorage stored)) ∧
    (∀ l : List Score,
      isScoreArrayJson (getScoresFromStorage (some (setScoresInStorage l))) = true) := by
  constructor
  · intro stored
    match stored with
    | none => exact Or.inl rfl
    | some raw =>
      have hred : getScoresFromStorage (some raw) =
          (if raw = "" then Json.arr []
           else
             match Json.parse raw with
             | some v => v
             | none => Json.arr []) := rfl
      by_cases h : raw = ""
      · left
        rw [hred, if_pos h]
      · cases hp : Json.parse raw with
        | none =>
          left
          rw [hred, if_neg h, hp]
        | some v =>
          right
          refine ⟨raw, rfl, ?_⟩
          rw [hred, if_neg h, hp]
  · intro l
    rw [getScores_set_roundtrip]
    exact encodeScores_isScoreArray l

/-- C6: writing any well-formed score list with `setScoresInStorage` and
reading it back with `getScoresFromStorage` returns a value deep-equal to
the list written — JSON encode followed by JSON decode is the identity on
score lists. -/
theorem C6_set_get_roundtrip (scoresArray : List Score) :
    getScoresFromStorage (some (setScoresInStorage scoresArray)) =
      encodeScores scoresArray :=
  getScores_set_roundtrip scoresArray

/-- C7: the scoreboard filter is a case-insensitive substring match on the
record name — the empty filter shows every record, and a filter matching no
record name yields an empty view. -/
theorem C7_filter_matching (records : List Score) :
    filterView "" records = records ∧
    (∀ filterText : String,
      (∀ r ∈ records, matchesFilter filterText r = false) →
        filterView filterText records = []) := by
  constructor
  · have hall : ∀ r : Score, matchesFilter "" r = true := by
      intro r
      show containsSub (lowerList ("" : String).data) _ = true
      exact containsSub_nil_needle _
    unfold filterView
    rw [List.filter_eq_self.mpr]
    intro a _
    rw [hall a]
  · intro ft h
    unfold filterView
    rw [List.filter_eq_nil_iff]
    intro a ha
    rw [h a ha]
    simp

/-- C7 witness: with a one-record list, the empty filter keeps the record
and the non-matching filter text `"zzz"` empties the view. -/
theorem C7_filter_matching_witness :
    filterView "" [⟨"Alice", 3, 5, none⟩] = [⟨"Alice", 3, 5, none⟩] ∧
    (∀ r ∈ ([⟨"Alice", 3, 5, none⟩] : List Score), matchesFilter "zzz" r = false) ∧
    filterView "zzz" [⟨"Alice", 3, 5, none⟩] = [] :=
  ⟨(C7_filter_matching [⟨"Alice", 3, 5, none⟩]).1,
    by decide,
    (C7_filter_matching [⟨"Alice", 3, 5, none⟩]).2 "zzz" (by decide)⟩

/-- C8: the weighted average is `round(sum(correct)/sum(total)*100)` over
the visible rows, hidden exactly when no rows are visible or the total sum
is zero; on `[{3,5},{4,5}]` it is `70`. -/
theorem C8_weighted_average (visible : List Score) :
    (weightedAverage visible = none ↔
      visible = [] ∨ (visible.map Score.total).sum = 0) ∧
    ((visible.map Score.total).sum ≠ 0 → visible ≠ [] →
      weightedAverage visible =
        some (jsRound (((visible.map Score.correct).sum : ℚ) /
          ((visible.map Score.total).sum : ℚ) * 100))) ∧
    weightedAverage [⟨"a", 3, 5, none⟩, ⟨"b", 4, 5, none⟩] = some 70 := by
  refine ⟨?_, ?_, ?_⟩
  · unfold weightedAverage
    by_cases h : visible.isEmpty || (visible.map Score.total).sum == 0
    · rw [if_pos h]
      simp only [List.isEmpty_iff, Bool.or_eq_true, beq_iff_eq] at h
      simp [h]
    · rw [if_neg h]
      simp only [List.isEmpty_iff, Bool.or_eq_true, beq_iff_eq] at h
      push_neg at h
      simp [h.1, h.2]
  · intro h1 h2
    unfold weightedAverage
    rw [if_neg (by simp [List.isEmpty_iff, h1, h2])]
  · norm_num [weightedAverage, jsRound, List.isEmpty]

/-- C8 witness: the formula conjunct applied to the two-record example. -/
theorem C8_weighted_average_witness :
    (([⟨"a", 3, 5, none⟩, ⟨"b", 4, 5, none⟩] : List Score).map Score.total).sum ≠ 0 ∧
    ([⟨"a", 3, 5, none⟩, ⟨"b", 4, 5, none⟩] : List Score) ≠ [] ∧
    weightedAverage [⟨"a", 3, 5, none⟩, ⟨"b", 4, 5, none⟩] =
      some (jsRound (((([⟨"a", 3, 5, none⟩, ⟨"b", 4, 5, none⟩] : List Score).map
          Score.correct).sum : ℚ) /
        ((([⟨"a", 3, 5, none⟩, ⟨"b", 4, 5, none⟩] : List Score).map
          Score.total).sum : ℚ) * 100)) :=
  ⟨by decide, by decide,
    (C8_weighted_average [⟨"a", 3, 5, none⟩, ⟨"b", 4, 5, none⟩]).2.1
      (by decide) (by decide)⟩
